import Mathlib

/-!
Verification of the conversation-extraction core of `renderchat.py`.

The Python source is shallowly embedded: pure string manipulation is
translated to executable Lean functions over `List Char` / `String`,
the message-assembly loops of the extractors become structural
recursions over candidate lists (the DOM work done by the external
BeautifulSoup / markdownify libraries is abstracted as the already
role-tagged, already markdown-converted inputs of those loops), and
Python `assert` / `raise ValueError` failures become `Except.error`
results carrying the source's message strings.
-/

namespace Renderchat

/-- A single conversation message: `role` is `"user"` or `"assistant"`,
`content` is the markdown text (mirrors the `Message` dataclass). -/
structure Message where
  role : String
  content : String
deriving DecidableEq, Repr

/-- Default message used for (never actually reached) out-of-range list reads. -/
def defaultMsg : Message := ⟨"", ""⟩

/-- Characters removed by Python's `str.strip()` (ASCII whitespace). -/
def isSpaceChar (c : Char) : Bool :=
  c = ' ' || c = '\t' || c = '\n' || c = '\r' || c = '\x0b' || c = '\x0c'

/-- `str.strip()` on a character list: drop leading and trailing whitespace. -/
def stripChars (l : List Char) : List Char :=
  ((l.dropWhile isSpaceChar).reverse.dropWhile isSpaceChar).reverse

/-- `str.strip()` on a `String`. -/
def pyStrip (s : String) : String := String.mk (stripChars s.data)

/-- Python's `text.split("\n")`: always returns at least one (possibly empty) line;
a trailing newline yields a trailing empty line. -/
def splitLines : List Char → List (List Char)
  | [] => [[]]
  | c :: rest =>
    match splitLines rest with
    | [] => [[]]
    | line :: lines => if c = '\n' then [] :: line :: lines else (c :: line) :: lines

/-- Python's `"\n".join` on character-list lines. -/
def joinLinesC : List (List Char) → List Char
  | [] => []
  | [l] => l
  | l :: ls => l ++ '\n' :: joinLinesC ls

/-- Python's `"\n".join` on `String` lines. -/
def joinLinesStr : List String → String
  | [] => ""
  | [s] => s
  | s :: ss => s ++ "\n" ++ joinLinesStr ss

/-- The fixed language-identifier set of `clean_markdown_code_blocks`. -/
def languages : List (List Char) :=
  ["python".data, "javascript".data, "typescript".data, "bash".data, "sh".data,
   "json".data, "yaml".data, "yml".data, "html".data, "css".data, "jsx".data,
   "tsx".data, "java".data, "cpp".data, "c".data, "go".data, "rust".data,
   "ruby".data, "php".data]

/-- `str.lower()` on a character list. -/
def lowerChars (l : List Char) : List Char := l.map Char.toLower

/-- The fence-line test of `clean_markdown_code_blocks`, applied to a stripped line:
`line.strip() == "```" or (line.strip().startswith("```") and len(line.strip()) <= 20)`. -/
def fenceTest (s : List Char) : Bool :=
  s = "```".data || ("```".data.isPrefixOf s && s.length ≤ 20)

/-- The while-loop of `clean_markdown_code_blocks` over the split lines.
On a fence line it peeks the next line: a recognized language line is merged
(`i += 2`), otherwise a bare ```` ``` ```` is emitted (`i += 1`); non-fence
lines pass through unchanged. -/
def cleanLoop : List (List Char) → List (List Char)
  | [] => []
  | [line] =>
    if fenceTest (stripChars line) then ["```".data] else [line]
  | line :: next :: rest =>
    if fenceTest (stripChars line) then
      if lowerChars (stripChars next) ∈ languages then
        ("```".data ++ stripChars next) :: cleanLoop rest
      else
        "```".data :: cleanLoop (next :: rest)
    else
      line :: cleanLoop (next :: rest)

/-- `clean_markdown_code_blocks`: split on newlines, run the repair pass,
rejoin, and strip the whole result. -/
def clean_markdown_code_blocks (markdown_text : String) : String :=
  String.mk (stripChars (joinLinesC (cleanLoop (splitLines markdown_text.data))))

/-- The fixed attachment notice of the Claude/Grok extractors (without the
blank-line separator, which the source writes inline). -/
def attachment_note : String :=
  "📎 **[Attachment Hidden]** *(Files/images are not included in shared conversations)*"

/-- One iteration of the Claude extractor's message loop, for one candidate
`(role, markdown_text)` pair; `markdown_text` stands for the output of the
external `markdownify` call. Returns the optionally emitted `Message` and the
updated `added_file_note` flag. The notice is prepended before the emptiness
check, exactly as in the source. -/
def claudeStep (has_hidden_files added : Bool) (cand : String × String) :
    Option Message × Bool :=
  let t := clean_markdown_code_blocks (pyStrip cand.2)
  if has_hidden_files && cand.1 == "user" && !added then
    (if attachment_note ++ "\n\n" ++ t == "" then none
     else some ⟨cand.1, attachment_note ++ "\n\n" ++ t⟩, true)
  else
    (if t == "" then none else some ⟨cand.1, t⟩, added)

/-- The Claude extractor's message-assembly loop over the role-tagged content
divs, threading the `added_file_note` flag. -/
def claudeLoop (has_hidden_files : Bool) : Bool → List (String × String) → List Message
  | _, [] => []
  | added, c :: cs =>
    match claudeStep has_hidden_files added c with
    | (some m, a2) => m :: claudeLoop has_hidden_files a2 cs
    | (none, a2) => claudeLoop has_hidden_files a2 cs

/-- `extract_claude_conversation`, abstracted over the DOM scan: the inputs are
the `has_hidden_files` flag and the ordered `(role, markdown_text)` candidates. -/
def extract_claude_conversation (has_hidden_files : Bool)
    (divs : List (String × String)) : Except String (List Message) :=
  let messages := claudeLoop has_hidden_files false divs
  if messages.isEmpty then
    .error "Could not extract conversation data from Claude page"
  else .ok messages

/-- One iteration of the Grok extractor's loop. A bubble whose parent matched
neither alignment class has role `none` and is skipped entirely. -/
def grokStep (has_hidden_attachments added : Bool) (bubble : Option String × String) :
    Option Message × Bool :=
  match bubble.1 with
  | none => (none, added)
  | some role =>
    let t := clean_markdown_code_blocks (pyStrip bubble.2)
    if has_hidden_attachments && role == "user" && !added then
      (if attachment_note ++ "\n\n" ++ t == "" then none
       else some ⟨role, attachment_note ++ "\n\n" ++ t⟩, true)
    else
      (if t == "" then none else some ⟨role, t⟩, added)

/-- The Grok extractor's message-assembly loop over the message bubbles. -/
def grokLoop (has_hidden_attachments : Bool) :
    Bool → List (Option String × String) → List Message
  | _, [] => []
  | added, b :: bs =>
    match grokStep has_hidden_attachments added b with
    | (some m, a2) => m :: grokLoop has_hidden_attachments a2 bs
    | (none, a2) => grokLoop has_hidden_attachments a2 bs

/-- `extract_grok_conversation`, abstracted over the DOM scan: the inputs are
the `has_hidden_attachments` flag and the ordered bubbles, each carrying its
resolved role (`none` when the parent matched neither alignment class). -/
def extract_grok_conversation (has_hidden_attachments : Bool)
    (bubbles : List (Option String × String)) : Except String (List Message) :=
  let messages := grokLoop has_hidden_attachments false bubbles
  if messages.isEmpty then
    .error "Could not extract conversation data from Grok page"
  else .ok messages

/-- One candidate of the ChatGPT extractor's primary strategy: roles other
than `user`/`assistant` are skipped; the cleaned content must be non-empty. -/
def chatgptContrib (cand : String × String) : Option Message :=
  if cand.1 == "user" || cand.1 == "assistant" then
    let t := clean_markdown_code_blocks (pyStrip cand.2)
    if t == "" then none else some ⟨cand.1, t⟩
  else none

/-- The ChatGPT extractor's primary message loop. -/
def chatgptLoop (cands : List (String × String)) : List Message :=
  cands.filterMap chatgptContrib

/-- One mapping entry of the ChatGPT structured-data fallback:
`(author role, content parts)`. Falsy (empty) parts are dropped before the
newline join; the stripped joined text must be non-empty. -/
def scriptEntryMsg (entry : String × List String) : Option Message :=
  if entry.1 == "user" || entry.1 == "assistant" then
    if entry.2.isEmpty then none
    else
      let text := joinLinesStr (entry.2.filter (fun p => !(p == "")))
      if pyStrip text == "" then none else some ⟨entry.1, pyStrip text⟩
  else none

/-- The ChatGPT fallback loop over the JSON script tags. A `none` script stands
for a tag whose JSON parse or structure navigation failed (`continue` in the
source); messages accumulate across scripts and are returned as soon as the
accumulator is non-empty. -/
def chatgptFallback : List Message → List (Option (List (String × List String))) → List Message
  | msgs, [] => msgs
  | msgs, none :: rest => chatgptFallback msgs rest
  | msgs, some entries :: rest =>
    let msgs2 := msgs ++ entries.filterMap scriptEntryMsg
    if msgs2.isEmpty then chatgptFallback msgs2 rest else msgs2

/-- `extract_conversation_from_html` (the ChatGPT variant), abstracted over the
DOM scan: `primary` is the ordered `(data-message-author-role, markdown_text)`
candidates and `scripts` the parsed `application/json` script tags. -/
def extract_conversation_from_html (primary : List (String × String))
    (scripts : List (Option (List (String × List String)))) :
    Except String (List Message) :=
  let messages := chatgptLoop primary
  let messages2 := if messages.isEmpty then chatgptFallback messages scripts else messages
  if messages2.isEmpty then
    .error "Could not extract conversation data from the page"
  else .ok messages2

/-- `detect_platform`: substring tests against the URL, in source order. -/
def subIn (needle hay : List Char) : Bool :=
  match hay with
  | [] => needle.isEmpty
  | _ :: t => needle.isPrefixOf hay || subIn needle t

/-- Python's `needle in hay` substring containment on strings. -/
def strContains (hay needle : String) : Bool := subIn needle.data hay.data

/-- `detect_platform`: returns the platform name, or the `ValueError` message
when the URL contains none of the four fixed patterns. -/
def detect_platform (url : String) : Except String String :=
  if strContains url "chatgpt.com/share/" then .ok "chatgpt"
  else if strContains url "claude.ai/share/" then .ok "claude"
  else if strContains url "grok.com/share/" || strContains url "x.ai/share/" then .ok "grok"
  else .error "URL must be from chatgpt.com/share/, claude.ai/share/, or grok.com/share/"

/-- `count_turns`'s scan, with a flag recording whether the scan currently sits
inside the inner `while` that absorbs the assistant messages following a user
message. A user message always starts a turn; an assistant message is either
absorbed (flag set) or skipped (flag clear); any other role is skipped. -/
def countTurnsGo : Bool → List Message → Nat
  | _, [] => 0
  | absorbing, m :: rest =>
    if absorbing && m.role == "assistant" then countTurnsGo true rest
    else if m.role == "user" then 1 + countTurnsGo true rest
    else countTurnsGo false rest

/-- `count_turns`: number of conversation turns (user message plus following
assistant run). -/
def count_turns (messages : List Message) : Nat := countTurnsGo false messages

/-- The backward scan of `filter_last_turns`: `i` is one past the current
Python index (`range(len(messages)-1, -1, -1)`), `seen` is `turns_seen`.
Returns `start_idx` (0 when the loop ends without `break`). -/
def lastTurnsLoop (messages : List Message) (n_turns : Int) : Nat → Int → Nat
  | 0, _ => 0
  | i + 1, seen =>
    if (messages.getD i defaultMsg).role == "user" then
      if seen + 1 = n_turns then i
      else lastTurnsLoop messages n_turns i (seen + 1)
    else lastTurnsLoop messages n_turns i seen

/-- `filter_last_turns`: the two `assert`s become `Except.error` with the
assertion messages; on success the suffix `messages[start_idx:]` is returned. -/
def filter_last_turns (messages : List Message) (n_turns : Int) :
    Except String (List Message) :=
  let total_turns := count_turns messages
  if n_turns ≤ 0 then .error "Number of turns must be positive"
  else if (total_turns : Int) < n_turns then
    .error ("Requested " ++ toString n_turns ++
      " turns but conversation only has " ++ toString total_turns ++ " turns")
  else .ok (messages.drop (lastTurnsLoop messages n_turns messages.length 0))

/-- The five lines appended for one message by `generate_xml_text`. -/
def message_lines (idx : Nat) (msg : Message) : List String :=
  ["  <message index=\"" ++ toString idx ++ "\" role=\"" ++ msg.role ++ "\">",
   "    <content>",
   "      " ++ msg.content,
   "    </content>",
   "  </message>"]

/-- The per-message lines of `generate_xml_text`, with 1-based enumeration. -/
def xmlLines : Nat → List Message → List String
  | _, [] => []
  | idx, m :: ms => message_lines idx m ++ xmlLines (idx + 1) ms

/-- `generate_xml_text`: root element, message blocks, closing tag, joined
with newlines. Content is inserted raw, with no escaping. -/
def generate_xml_text (messages : List Message) : String :=
  joinLinesStr (["<conversation>"] ++ xmlLines 1 messages ++ ["</conversation>"])

/-! ### String-infrastructure lemmas -/

lemma dw_head_false {α : Type} {p : α → Bool} :
    ∀ (l : List α) (x : α) (xs : List α), List.dropWhile p l = x :: xs → p x = false := by
  intro l
  induction l with
  | nil => intro x xs h; simp [List.dropWhile] at h
  | cons a t ih =>
    intro x xs h
    rw [List.dropWhile_cons] at h
    by_cases hp : p a = true
    · rw [if_pos hp] at h; exact ih x xs h
    · rw [if_neg hp] at h
      injection h with h1 _
      subst h1
      simpa using hp

lemma dropWhile_idem {α : Type} (p : α → Bool) (l : List α) :
    List.dropWhile p (List.dropWhile p l) = List.dropWhile p l := by
  cases hd : List.dropWhile p l with
  | nil => simp
  | cons x xs =>
    rw [List.dropWhile_cons, if_neg]
    rw [dw_head_false l x xs hd]
    simp

lemma dw_getLast {α : Type} {p : α → Bool} :
    ∀ l : List α, List.dropWhile p l ≠ [] →
      (List.dropWhile p l).getLast? = l.getLast? := by
  intro l
  induction l with
  | nil => simp [List.dropWhile]
  | cons a t ih =>
    intro h
    rw [List.dropWhile_cons] at h ⊢
    by_cases hp : p a = true
    · rw [if_pos hp] at h ⊢
      have ht : t ≠ [] := by
        intro e; rw [e] at h; simp [List.dropWhile] at h
      rw [ih h]
      cases t with
      | nil => exact absurd rfl ht
      | cons b t2 => rw [List.getLast?_cons_cons]
    · rw [if_neg hp]

lemma stripChars_idem (l : List Char) : stripChars (stripChars l) = stripChars l := by
  unfold stripChars
  set A := l.dropWhile isSpaceChar with hA
  set B := A.reverse.dropWhile isSpaceChar with hB
  have h1 : B.reverse.dropWhile isSpaceChar = B.reverse := by
    cases hBc : B with
    | nil => simp
    | cons x xs =>
      have hBne : B ≠ [] := by rw [hBc]; simp
      have hAr : A.reverse ≠ [] := by
        intro e
        rw [hB, e] at hBne
        simp [List.dropWhile] at hBne
      have hAne : A ≠ [] := by
        intro e; apply hAr; rw [e]; rfl
      obtain ⟨a, as, hAc⟩ := List.exists_cons_of_ne_nil hAne
      have hpa : isSpaceChar a = false := by
        apply dw_head_false (p := isSpaceChar) l a as
        rw [← hA]; exact hAc
      have hgl : B.getLast? = some a := by
        rw [hB, dw_getLast A.reverse (by rw [← hB]; exact hBne)]
        rw [List.getLast?_reverse, hAc]
        rfl
      have hh : B.reverse.head? = some a := by
        rw [List.head?_reverse]; exact hgl
      cases hBr : B.reverse with
      | nil => rw [hBr] at hh; simp at hh
      | cons y ys =>
        rw [hBr] at hh
        simp only [List.head?_cons, Option.some.injEq] at hh
        subst hh
        rw [← hBc, hBr, List.dropWhile_cons, hpa]
        simp
  rw [h1, List.reverse_reverse, hB, dropWhile_idem]

lemma splitLines_ne_nil : ∀ l : List Char, splitLines l ≠ [] := by
  intro l
  cases l with
  | nil => simp [splitLines]
  | cons c rest =>
    simp only [splitLines]
    cases h : splitLines rest with
    | nil => simp
    | cons line lines => by_cases hc : c = '\n' <;> simp [hc]

lemma joinLinesC_cons_cons (x y : List Char) (ls : List (List Char)) :
    joinLinesC (x :: y :: ls) = x ++ '\n' :: joinLinesC (y :: ls) := rfl

lemma join_split : ∀ l : List Char, joinLinesC (splitLines l) = l := by
  intro l
  induction l with
  | nil => rfl
  | cons c rest ih =>
    cases h : splitLines rest with
    | nil => exact absurd h (splitLines_ne_nil rest)
    | cons line lines =>
      rw [h] at ih
      by_cases hc : c = '\n'
      · subst hc
        have hsplit : splitLines ('\n' :: rest) = [] :: line :: lines := by
          simp [splitLines, h]
        rw [hsplit, joinLinesC_cons_cons, ih]
        rfl
      · have hsplit : splitLines (c :: rest) = (c :: line) :: lines := by
          simp [splitLines, h, hc]
        rw [hsplit]
        cases lines with
        | nil =>
          show c :: line = c :: rest
          rw [show joinLinesC [line] = line from rfl] at ih
          rw [ih]
        | cons l2 ls =>
          rw [joinLinesC_cons_cons]
          show c :: (line ++ '\n' :: joinLinesC (l2 :: ls)) = c :: rest
          rw [← joinLinesC_cons_cons, ih]

/-! ### C1: idempotence of the markdown normalizer -/

lemma cleanLoop_id : ∀ lines : List (List Char),
    (∀ l ∈ lines, fenceTest (stripChars l) = false) → cleanLoop lines = lines := by
  intro lines
  induction lines with
  | nil => intro _; rfl
  | cons a t ih =>
    intro h
    have ha := h a (by simp)
    cases t with
    | nil => simp [cleanLoop, ha]
    | cons b t2 =>
      simp only [cleanLoop, ha, Bool.false_eq_true, if_false, List.cons.injEq, true_and]
      exact ih (fun l hl => h l (List.mem_cons_of_mem a hl))

/-- C1 (amended): `clean` is not idempotent in general; it is idempotent on
every input whose cleaned form contains no fence line (no line whose stripped
form is ```` ``` ```` or starts with ```` ``` ```` with at most 20 characters). -/
theorem C1_clean_idem_of_fence_free (t : String)
    (h : ∀ line ∈ splitLines (clean_markdown_code_blocks t).data,
      fenceTest (stripChars line) = false) :
    clean_markdown_code_blocks (clean_markdown_code_blocks t) =
      clean_markdown_code_blocks t := by
  set s := clean_markdown_code_blocks t with hs
  have hdata : s.data = stripChars (joinLinesC (cleanLoop (splitLines t.data))) := by
    rw [hs]; rfl
  calc clean_markdown_code_blocks s
      = String.mk (stripChars (joinLinesC (cleanLoop (splitLines s.data)))) := rfl
    _ = String.mk (stripChars (joinLinesC (splitLines s.data))) := by rw [cleanLoop_id _ h]
    _ = String.mk (stripChars s.data) := by rw [join_split]
    _ = String.mk s.data := by rw [hdata, stripChars_idem]
    _ = s := by cases s; rfl

/-- C1 witness: the amended theorem applied at the concrete input "hello world". -/
theorem C1_witness :
    clean_markdown_code_blocks (clean_markdown_code_blocks "hello world") =
      clean_markdown_code_blocks "hello world" :=
  C1_clean_idem_of_fence_free "hello world" (by decide)

/-- C1 counterexample: on the spec's own §8 scenario input, `clean` is not
idempotent — the second pass strips the language merged by the first pass. -/
theorem C1_cex :
    clean_markdown_code_blocks (clean_markdown_code_blocks " ```\npython\nprint(1)\n``` ") ≠
      clean_markdown_code_blocks " ```\npython\nprint(1)\n``` " := by decide

/-! ### C2: the normalizer pass, stated the spec's way (amended) -/

/-- The §4.3 pass as the (amended) spec words it, with the spec's explicit
index advancing: on a fence line, peek the next line; a recognized language
line is merged and the index advances two, otherwise the bare fence marker is
emitted (amended: the source discards any suffix or surrounding whitespace of
the fence line) and the index advances one; non-fence lines are emitted
unchanged. -/
def specPass (lines : List (List Char)) (i : Nat) : List (List Char) :=
  if i < lines.length then
    let line := lines.getD i []
    if fenceTest (stripChars line) then
      if i + 1 < lines.length then
        let nl := stripChars (lines.getD (i + 1) [])
        if lowerChars nl ∈ languages then
          ("```".data ++ nl) :: specPass lines (i + 2)
        else
          "```".data :: specPass lines (i + 1)
      else
        "```".data :: specPass lines (i + 1)
    else
      line :: specPass lines (i + 1)
  else []
termination_by lines.length - i

/-- The amended-spec normalizer: split, run the indexed pass from 0, join,
trim the whole result. -/
def cleanSpecAmended (t : String) : String :=
  String.mk (stripChars (joinLinesC (specPass (splitLines t.data) 0)))

lemma specPass_eq_cleanLoop :
    ∀ (k : Nat) (lines : List (List Char)) (i : Nat), lines.length - i ≤ k →
      specPass lines i = cleanLoop (lines.drop i) := by
  intro k
  induction k with
  | zero =>
    intro lines i h
    have hi : lines.length ≤ i := by omega
    rw [specPass, if_neg (by omega), List.drop_eq_nil_of_le hi]
    rfl
  | succ k ih =>
    intro lines i h
    by_cases hi : i < lines.length
    · have hdrop : lines.drop i = lines.getD i [] :: lines.drop (i + 1) := by
        rw [List.getD_eq_getElem _ _ hi]
        exact List.drop_eq_getElem_cons hi
      by_cases hf : fenceTest (stripChars (lines.getD i [])) = true
      · by_cases hi2 : i + 1 < lines.length
        · have hdrop2 : lines.drop (i + 1) = lines.getD (i + 1) [] :: lines.drop (i + 2) := by
            rw [List.getD_eq_getElem _ _ hi2]
            exact List.drop_eq_getElem_cons hi2
          rw [specPass, if_pos hi, hdrop, hdrop2]
          simp only [hf, if_true, if_pos hi2, cleanLoop]
          by_cases hl : lowerChars (stripChars (lines.getD (i + 1) [])) ∈ languages
          · rw [if_pos hl, if_pos hl, ih lines (i + 2) (by omega)]
          · rw [if_neg hl, if_neg hl, ih lines (i + 1) (by omega), hdrop2]
        · have hdrop1 : lines.drop (i + 1) = [] :=
            List.drop_eq_nil_of_le (by omega)
          rw [specPass, if_pos hi, hdrop, hdrop1]
          simp only [hf, if_true, if_neg hi2, cleanLoop]
          rw [ih lines (i + 1) (by omega), hdrop1]
          rfl
      · rw [specPass, if_pos hi, hdrop]
        simp only [hf, Bool.false_eq_true, if_false]
        rw [ih lines (i + 1) (by omega)]
        cases hd1 : lines.drop (i + 1) with
        | nil => simp only [cleanLoop, hf, Bool.false_eq_true, if_false]
        | cons b t2 => simp only [cleanLoop, hf, Bool.false_eq_true, if_false]
    · rw [specPass, if_neg hi, List.drop_eq_nil_of_le (by omega)]
      rfl

/-- C2 (amended): `clean` implements the spec's single-pass fence repair, with
one correction: on a fence line whose next line is not a recognized language,
the source emits the bare fence marker ```` ``` ```` (discarding any language
suffix or surrounding whitespace of the fence line) rather than the fence line
unchanged. Non-fence lines pass through unchanged, recognized language lines
are merged onto the fence, and the whole result is trimmed. The second
conjunct is the spec's §8 scenario. -/
theorem C2_clean_spec :
    (∀ t : String, clean_markdown_code_blocks t = cleanSpecAmended t) ∧
      clean_markdown_code_blocks " ```\npython\nprint(1)\n``` " =
        "```python\nprint(1)\n```" := by
  constructor
  · intro t
    unfold clean_markdown_code_blocks cleanSpecAmended
    rw [specPass_eq_cleanLoop (splitLines t.data).length (splitLines t.data) 0 (by omega)]
    rfl
  · decide

/-- C2 counterexample: a fence-marker-prefixed line whose next line is not a
recognized language is not emitted unchanged — its `python` suffix is
discarded. -/
theorem C2_cex :
    clean_markdown_code_blocks "```python\nfoo" = "```\nfoo" ∧
      ("```\nfoo" : String) ≠ "```python\nfoo" := by
  constructor
  · rfl
  · decide

/-! ### C3: extractors never return an empty conversation -/

/-- C3: every extractor variant returns a non-empty message list on success,
and fails with the extraction-failed `ValueError` message whenever all of its
strategies produced zero messages (for the ChatGPT variant, including the
structured-data fallback). -/
theorem C3_extractors_nonempty :
    (∀ hf divs ms, extract_claude_conversation hf divs = .ok ms → ms ≠ []) ∧
    (∀ ha bubbles ms, extract_grok_conversation ha bubbles = .ok ms → ms ≠ []) ∧
    (∀ primary scripts ms,
      extract_conversation_from_html primary scripts = .ok ms → ms ≠ []) ∧
    (∀ hf divs, claudeLoop hf false divs = [] →
      extract_claude_conversation hf divs =
        .error "Could not extract conversation data from Claude page") ∧
    (∀ ha bubbles, grokLoop ha false bubbles = [] →
      extract_grok_conversation ha bubbles =
        .error "Could not extract conversation data from Grok page") ∧
    (∀ primary scripts, chatgptLoop primary = [] →
      chatgptFallback (chatgptLoop primary) scripts = [] →
      extract_conversation_from_html primary scripts =
        .error "Could not extract conversation data from the page") := by
  refine ⟨?_, ?_, ?_, ?_, ?_, ?_⟩
  · intro hf divs ms h
    unfold extract_claude_conversation at h
    by_cases he : (claudeLoop hf false divs).isEmpty
    · rw [if_pos he] at h; exact absurd h (by simp)
    · rw [if_neg he] at h
      injection h with h2
      subst h2
      simpa [List.isEmpty_iff] using he
  · intro ha bubbles ms h
    unfold extract_grok_conversation at h
    by_cases he : (grokLoop ha false bubbles).isEmpty
    · rw [if_pos he] at h; exact absurd h (by simp)
    · rw [if_neg he] at h
      injection h with h2
      subst h2
      simpa [List.isEmpty_iff] using he
  · intro primary scripts ms h
    simp only [extract_conversation_from_html] at h
    by_cases h1 : (chatgptLoop primary).isEmpty = true
    · simp only [h1, if_true] at h
      by_cases h2 : (chatgptFallback (chatgptLoop primary) scripts).isEmpty = true
      · rw [if_pos h2] at h
        exact absurd h (by simp)
      · have h2f : (chatgptFallback (chatgptLoop primary) scripts).isEmpty = false := by
          simpa using h2
        simp only [h2f, Bool.false_eq_true, if_false] at h
        injection h with h3
        subst h3
        simpa [List.isEmpty_iff] using h2f
    · have h1f : (chatgptLoop primary).isEmpty = false := by simpa using h1
      simp only [h1f, Bool.false_eq_true, if_false] at h
      injection h with h3
      subst h3
      simpa [List.isEmpty_iff] using h1f
  · intro hf divs h
    unfold extract_claude_conversation
    rw [h]
    rfl
  · intro ha bubbles h
    unfold extract_grok_conversation
    rw [h]
    rfl
  · intro primary scripts h1 h2
    unfold extract_conversation_from_html
    rw [h1] at h2 ⊢
    show (if (chatgptFallback [] scripts).isEmpty = true then
        (Except.error "Could not extract conversation data from the page" :
          Except String (List Message))
      else .ok (chatgptFallback [] scripts)) =
      .error "Could not extract conversation data from the page"
    rw [h2]
    rfl

/-- C3 witness: the theorem applied to a concrete one-candidate Claude page
and to a concrete empty page. -/
theorem C3_witness :
    ([⟨"user", "hi"⟩] : List Message) ≠ [] ∧
      extract_claude_conversation false [] =
        .error "Could not extract conversation data from Claude page" :=
  ⟨C3_extractors_nonempty.1 false [("user", "hi")] [⟨"user", "hi"⟩] rfl,
   C3_extractors_nonempty.2.2.2.1 false [] rfl⟩

/-! ### C4: empty-content candidates and the attachment notice -/

/-- C4 (amended): a candidate whose normalized content is empty yields no
message — except, in the Claude and Grok variants, the first user-role
candidate when the attachment-redaction rule is active: there the notice is
prepended before the emptiness check, so a message whose content is exactly
the notice (plus blank line) is emitted. The ChatGPT variant (both the primary
strategy and the structured-data fallback) always drops empty candidates. -/
theorem C4_empty_candidates :
    (∀ hf added (c : String × String),
      clean_markdown_code_blocks (pyStrip c.2) = "" →
        ((claudeStep hf added c).1 = none ↔
          ¬(hf = true ∧ c.1 = "user" ∧ added = false))) ∧
    (∀ ha added r (t : String),
      clean_markdown_code_blocks (pyStrip t) = "" →
        ((grokStep ha added (some r, t)).1 = none ↔
          ¬(ha = true ∧ r = "user" ∧ added = false))) ∧
    (∀ c : String × String,
      clean_markdown_code_blocks (pyStrip c.2) = "" → chatgptContrib c = none) ∧
    (∀ e : String × List String,
      pyStrip (joinLinesStr (e.2.filter (fun p => !(p == "")))) = "" →
        scriptEntryMsg e = none) := by
  refine ⟨?_, ?_, ?_, ?_⟩
  · intro hf added c h
    unfold claudeStep
    rw [h]
    by_cases hc : hf && c.1 == "user" && !added
    · rw [if_pos hc]
      have hne : (attachment_note ++ "\n\n" ++ "" == "") = false := by decide
      rw [hne]
      simp only [Bool.and_eq_true, Bool.not_eq_true', beq_iff_eq] at hc
      constructor
      · intro hnone
        simp at hnone
      · intro hn
        exact absurd ⟨hc.1.1, hc.1.2, hc.2⟩ hn
    · rw [if_neg hc]
      simp only [Bool.and_eq_true, Bool.not_eq_true', beq_iff_eq] at hc
      constructor
      · intro _ hcontra
        exact hc ⟨⟨hcontra.1, hcontra.2.1⟩, hcontra.2.2⟩
      · intro _
        simp
  · intro ha added r t h
    unfold grokStep
    simp only
    rw [h]
    by_cases hc : ha && r == "user" && !added
    · rw [if_pos hc]
      have hne : (attachment_note ++ "\n\n" ++ "" == "") = false := by decide
      rw [hne]
      simp only [Bool.and_eq_true, Bool.not_eq_true', beq_iff_eq] at hc
      constructor
      · intro hnone
        simp at hnone
      · intro hn
        exact absurd ⟨hc.1.1, hc.1.2, hc.2⟩ hn
    · rw [if_neg hc]
      simp only [Bool.and_eq_true, Bool.not_eq_true', beq_iff_eq] at hc
      constructor
      · intro _ hcontra
        exact hc ⟨⟨hcontra.1, hcontra.2.1⟩, hcontra.2.2⟩
      · intro _
        simp
  · intro c h
    unfold chatgptContrib
    rw [h]
    by_cases hr : c.1 == "user" || c.1 == "assistant"
    · rw [if_pos hr]; rfl
    · rw [if_neg hr]
  · intro e h
    simp only [scriptEntryMsg]
    rw [h]
    simp

/-- C4 witness: an empty-content assistant candidate with the notice rule off
is dropped, by the amended theorem. -/
theorem C4_witness : (claudeStep false false ("assistant", "")).1 = none :=
  ((C4_empty_candidates.1 false false ("assistant", "") rfl).mpr (by simp))

/-- C4 counterexample: with hidden files detected, the Claude extractor emits
a message for a first user candidate whose normalized content is empty — the
content of the emitted message is just the attachment notice. -/
theorem C4_cex :
    extract_claude_conversation true [("user", "")] =
        .ok [⟨"user", attachment_note ++ "\n\n"⟩] ∧
      clean_markdown_code_blocks (pyStrip "") = "" := ⟨rfl, rfl⟩

/-! ### C5: count_turns counts the user messages -/

/-- The absorb-flag of `count_turns` never changes the count: every user
message starts a turn, assistant messages never do. -/
lemma countTurnsGo_eq_countP :
    ∀ (b : Bool) (ms : List Message),
      countTurnsGo b ms = ms.countP (fun m => m.role == "user") := by
  intro b ms
  induction ms generalizing b with
  | nil => cases b <;> rfl
  | cons m rest ih =>
    rw [List.countP_cons]
    simp only [countTurnsGo]
    by_cases h1 : (b && m.role == "assistant") = true
    · rw [if_pos h1]
      have hrole : (m.role == "assistant") = true := by
        rcases Bool.and_eq_true _ _ |>.mp h1 with ⟨_, hr⟩
        exact hr
      have hnu : (m.role == "user") = false := by
        rw [beq_iff_eq] at hrole
        simp [hrole]
      rw [hnu, ih true]
      simp
    · rw [if_neg h1]
      by_cases h2 : (m.role == "user") = true
      · rw [if_pos h2, ih true, h2]
        simp [Nat.add_comm]
      · have h2f : (m.role == "user") = false := by simpa using h2
        rw [h2f]
        simp only [Bool.false_eq_true, if_false, Nat.add_zero]
        exact ih false

/-- `count_turns` equals the number of user-role messages. -/
lemma count_turns_eq_countP (ms : List Message) :
    count_turns ms = ms.countP (fun m => m.role == "user") :=
  countTurnsGo_eq_countP false ms

/-- C5: `count_turns` performs the increment-per-user forward scan: it equals
the number of user-role messages (each user message is a turn "start",
assistant runs are absorbed, leading assistants are skipped), and on the
spec's scenario `[assistant, user, assistant]` it returns 1. -/
theorem C5_count_turns :
    (∀ ms : List Message, count_turns ms = ms.countP (fun m => m.role == "user")) ∧
      count_turns [⟨"assistant", "stray"⟩, ⟨"user", "Q"⟩, ⟨"assistant", "A"⟩] = 1 :=
  ⟨count_turns_eq_countP, rfl⟩

/-! ### C6: the failure modes of filter_last_turns -/

/-- C6 (amended): `filter_last_turns` fails exactly when `n ≤ 0` or
`n > count_turns`; the too-many-turns failure carries the requested and the
available turn counts, while the non-positive failure carries a fixed message
without either count. -/
theorem C6_filter_errors :
    ∀ (c : List Message) (n : Int),
      ((∃ e, filter_last_turns c n = .error e) ↔
        (n ≤ 0 ∨ (count_turns c : Int) < n)) ∧
      (n ≤ 0 → filter_last_turns c n = .error "Number of turns must be positive") ∧
      (0 < n → (count_turns c : Int) < n →
        filter_last_turns c n = .error ("Requested " ++ toString n ++
          " turns but conversation only has " ++ toString (count_turns c) ++ " turns")) := by
  intro c n
  refine ⟨?_, ?_, ?_⟩
  · unfold filter_last_turns
    by_cases h1 : n ≤ 0
    · rw [if_pos h1]
      exact ⟨fun _ => Or.inl h1, fun _ => ⟨_, rfl⟩⟩
    · rw [if_neg h1]
      by_cases h2 : (count_turns c : Int) < n
      · rw [if_pos h2]
        exact ⟨fun _ => Or.inr h2, fun _ => ⟨_, rfl⟩⟩
      · rw [if_neg h2]
        constructor
        · rintro ⟨e, he⟩
          exact absurd he (by simp)
        · intro hor
          rcases hor with h | h
          · exact absurd h h1
          · exact absurd h h2
  · intro h1
    unfold filter_last_turns
    rw [if_pos h1]
  · intro h1 h2
    unfold filter_last_turns
    rw [if_neg (by omega), if_pos h2]

/-- C6 witness: requesting 5 turns of an empty conversation fails with the
message naming both counts. -/
theorem C6_witness :
    filter_last_turns [] 5 = .error ("Requested " ++ toString (5 : Int) ++
      " turns but conversation only has " ++ toString (count_turns ([] : List Message)) ++
      " turns") :=
  (C6_filter_errors [] 5).2.2 (by decide) (by decide)

/-- C6 counterexample: the `n ≤ 0` failure message is a fixed digit-free
string — it carries neither the requested nor the available turn count. -/
theorem C6_cex :
    filter_last_turns [] 0 = .error "Number of turns must be positive" ∧
      "Number of turns must be positive".data.any Char.isDigit = false := by
  constructor
  · rfl
  · decide

/-! ### C7 and C10: the backward scan of filter_last_turns -/

/-- Invariant of the backward scan: when between `seen` and the requested `n`
there remain `n - seen` user messages to find and the first `i` messages
contain at least that many, the scan returns an index `j < i` holding a user
message such that the slice `take i` from `j` on contains exactly `n - seen`
user messages. -/
lemma lastTurnsLoop_spec (msgs : List Message) (n : Int) :
    ∀ (i : Nat) (seen : Int), i ≤ msgs.length →
      1 ≤ n - seen →
      n - seen ≤ ((msgs.take i).countP (fun m => m.role == "user") : Int) →
      lastTurnsLoop msgs n i seen < i ∧
      ((msgs.getD (lastTurnsLoop msgs n i seen) defaultMsg).role == "user") = true ∧
      (((msgs.take i).drop (lastTurnsLoop msgs n i seen)).countP
        (fun m => m.role == "user") : Int) = n - seen := by
  intro i
  induction i with
  | zero =>
    intro seen _ hge hle
    rw [List.take_zero] at hle
    simp only [List.countP_nil, Nat.cast_zero] at hle
    omega
  | succ i ih =>
    intro seen hlen hge hle
    have hi : i < msgs.length := by omega
    have hgetE : msgs[i]? = some (msgs.getD i defaultMsg) := by
      rw [List.getD_eq_getElem _ _ hi]
      exact List.getElem?_eq_getElem hi
    have htake : msgs.take (i + 1) = msgs.take i ++ [msgs.getD i defaultMsg] := by
      rw [List.take_succ, hgetE]
      rfl
    have hlentake : (msgs.take i).length = i := by
      rw [List.length_take]
      exact Nat.min_eq_left (by omega)
    simp only [lastTurnsLoop]
    set a := msgs.getD i defaultMsg with hA
    by_cases hrole : (a.role == "user") = true
    · rw [if_pos hrole]
      have hcp1 : List.countP (fun m => m.role == "user") [a] = 1 := by
        simp [List.countP_cons, hrole]
      have hcnt1 : (msgs.take (i + 1)).countP (fun m => m.role == "user") =
          (msgs.take i).countP (fun m => m.role == "user") + 1 := by
        rw [htake, List.countP_append, hcp1]
      by_cases hseen : seen + 1 = n
      · rw [if_pos hseen]
        have hd1 : i ≤ (msgs.take i).length := by omega
        have hd2 : (msgs.take i).length ≤ i := by omega
        have hdrop : (msgs.take i ++ [a]).drop i = [a] := by
          rw [List.drop_append_of_le_length hd1, List.drop_eq_nil_of_le hd2]
          rfl
        refine ⟨by omega, hrole, ?_⟩
        rw [htake, hdrop, hcp1]
        omega
      · rw [if_neg hseen]
        rw [hcnt1] at hle
        have hrec := ih (seen + 1) (by omega) (by omega) (by push_cast at hle ⊢; omega)
        obtain ⟨hj1, hj2, hj3⟩ := hrec
        have hjle : lastTurnsLoop msgs n i (seen + 1) ≤ (msgs.take i).length := by omega
        refine ⟨by omega, hj2, ?_⟩
        rw [htake, List.drop_append_of_le_length hjle, List.countP_append, hcp1]
        push_cast at hj3 ⊢
        omega
    · have hrolef : (a.role == "user") = false := by simpa using hrole
      rw [hrolef]
      simp only [Bool.false_eq_true, if_false]
      have hcp0 : List.countP (fun m => m.role == "user") [a] = 0 := by
        simp [List.countP_cons, hrolef]
      have hcnt0 : (msgs.take (i + 1)).countP (fun m => m.role == "user") =
          (msgs.take i).countP (fun m => m.role == "user") := by
        rw [htake, List.countP_append, hcp0]
        omega
      rw [hcnt0] at hle
      have hrec := ih seen (by omega) hge hle
      obtain ⟨hj1, hj2, hj3⟩ := hrec
      have hjle : lastTurnsLoop msgs n i seen ≤ (msgs.take i).length := by omega
      refine ⟨by omega, hj2, ?_⟩
      rw [htake, List.drop_append_of_le_length hjle, List.countP_append, hcp0]
      push_cast at hj3 ⊢
      omega

/-- Dropping a prefix of non-user messages up to the first user message is the
same as `dropWhile (not user)`. -/
lemma drop_eq_dropWhile_of :
    ∀ (c : List Message) (j : Nat), j < c.length →
      (∀ m ∈ c.take j, (m.role == "user") = false) →
      ((c.getD j defaultMsg).role == "user") = true →
      c.drop j = c.dropWhile (fun m => !(m.role == "user")) := by
  intro c
  induction c with
  | nil => intro j hj; simp at hj
  | cons a rest ih =>
    intro j hj hall hrole
    cases j with
    | zero =>
      have ha : (a.role == "user") = true := hrole
      rw [List.drop_zero, List.dropWhile_cons]
      simp [ha]
    | succ j2 =>
      have ha : (a.role == "user") = false := by
        apply hall a
        rw [List.take_succ_cons]
        exact List.mem_cons_self a _
      rw [List.dropWhile_cons]
      simp only [ha, Bool.not_false, if_true, List.drop_succ_cons]
      apply ih j2 (by simpa using hj)
      · intro m hm
        apply hall m
        rw [List.take_succ_cons]
        exact List.mem_cons_of_mem a hm
      · exact hrole

/-- Full success-case specification of `filter_last_turns`, shared by the
C7 and C10 theorems. -/
lemma filter_last_turns_ok (c : List Message) (n : Int)
    (h1 : 1 ≤ n) (h2 : n ≤ (count_turns c : Int)) :
    ∃ j, j < c.length ∧
      filter_last_turns c n = .ok (c.drop j) ∧
      ((c.getD j defaultMsg).role == "user") = true ∧
      ((c.drop j).countP (fun m => m.role == "user") : Int) = n ∧
      (n = (count_turns c : Int) →
        c.drop j = c.dropWhile (fun m => !(m.role == "user"))) := by
  have hcount : count_turns c = c.countP (fun m => m.role == "user") :=
    count_turns_eq_countP c
  have hspec := lastTurnsLoop_spec c n c.length 0 (le_refl _) (by omega)
    (by rw [List.take_length]; rw [hcount] at h2; omega)
  obtain ⟨hj1, hj2, hj3⟩ := hspec
  rw [List.take_length] at hj3
  refine ⟨lastTurnsLoop c n c.length 0, hj1, ?_, hj2, by omega, ?_⟩
  · unfold filter_last_turns
    rw [if_neg (by omega), if_neg (by omega)]
  · intro hn
    apply drop_eq_dropWhile_of c _ hj1 _ hj2
    have hsplit : (c.take (lastTurnsLoop c n c.length 0)).countP
          (fun m => m.role == "user") +
        (c.drop (lastTurnsLoop c n c.length 0)).countP (fun m => m.role == "user") =
        c.countP (fun m => m.role == "user") := by
      rw [← List.countP_append, List.take_append_drop]
    have hzero : (c.take (lastTurnsLoop c n c.length 0)).countP
        (fun m => m.role == "user") = 0 := by
      rw [hcount] at hn
      omega
    intro m hm
    have := List.countP_eq_zero.mp hzero m hm
    simpa using this

/-- Demo conversation of the spec's §8 scenario. -/
def demoConv : List Message :=
  [⟨"user", "Hi"⟩, ⟨"assistant", "Hello"⟩, ⟨"assistant", "How can I help?"⟩,
   ⟨"user", "Bye"⟩]

/-- C7: for `1 ≤ n ≤ count_turns c`, `filter_last_turns c n` succeeds and
returns the contiguous suffix of `c` starting at the n-th user message from
the end: a suffix whose first message is a user message and which contains
exactly `n` user messages; for `n = count_turns c` it is the portion of `c`
from the first user message to the end. The second conjunct is the spec's §8
scenario. -/
theorem C7_filter_last_turns :
    (∀ (c : List Message) (n : Int), 1 ≤ n → n ≤ (count_turns c : Int) →
      ∃ j, j < c.length ∧
        filter_last_turns c n = .ok (c.drop j) ∧
        ((c.getD j defaultMsg).role == "user") = true ∧
        ((c.drop j).countP (fun m => m.role == "user") : Int) = n ∧
        (n = (count_turns c : Int) →
          c.drop j = c.dropWhile (fun m => !(m.role == "user")))) ∧
    filter_last_turns demoConv 1 = .ok [⟨"user", "Bye"⟩] :=
  ⟨filter_last_turns_ok, rfl⟩

/-- C7 witness: the theorem applied to the demo conversation with `n = 2`. -/
theorem C7_witness :
    ∃ j, j < demoConv.length ∧
      filter_last_turns demoConv 2 = .ok (demoConv.drop j) ∧
      ((demoConv.getD j defaultMsg).role == "user") = true ∧
      ((demoConv.drop j).countP (fun m => m.role == "user") : Int) = 2 ∧
      (2 = (count_turns demoConv : Int) →
        demoConv.drop j = demoConv.dropWhile (fun m => !(m.role == "user"))) :=
  C7_filter_last_turns.1 demoConv 2 (by decide) (by decide)

/-- C10: for `1 ≤ n ≤ count_turns c`, the filtered suffix contains exactly
`n` turns. -/
theorem C10_filter_count (c : List Message) (n : Int)
    (h1 : 1 ≤ n) (h2 : n ≤ (count_turns c : Int)) :
    ∃ ms, filter_last_turns c n = .ok ms ∧ (count_turns ms : Int) = n := by
  obtain ⟨j, _, hok, _, hcnt, _⟩ := filter_last_turns_ok c n h1 h2
  refine ⟨c.drop j, hok, ?_⟩
  rw [count_turns_eq_countP]
  exact hcnt

/-- C10 witness: the theorem applied to the demo conversation with `n = 1`. -/
theorem C10_witness :
    ∃ ms, filter_last_turns demoConv 1 = .ok ms ∧ (count_turns ms : Int) = 1 :=
  C10_filter_count demoConv 1 (by decide) (by decide)

/-! ### C8: the XML serializer -/

lemma string_append_assoc (a b c : String) : a ++ b ++ c = a ++ (b ++ c) := by
  cases a with | mk x =>
  cases b with | mk y =>
  cases c with | mk z =>
  exact congrArg String.mk (List.append_assoc x y z)

lemma joinLinesStr_cons (s : String) (rest : List String) (h : rest ≠ []) :
    joinLinesStr (s :: rest) = s ++ "\n" ++ joinLinesStr rest := by
  cases rest with
  | nil => exact absurd rfl h
  | cons t ts => rfl

lemma joinLinesStr_cons2 (s t : String) (rest : List String) :
    joinLinesStr (s :: t :: rest) = s ++ "\n" ++ joinLinesStr (t :: rest) := rfl

/-- Spec-side concatenation of the per-message blocks. -/
def specConcat : List String → String
  | [] => ""
  | s :: rest => s ++ specConcat rest

/-- One `<message>` element as §6 of the spec displays it: 2-space indented,
1-based index and role as attributes, the raw (unescaped) content inside
`<content>`. -/
def serializeBlock (idx : Nat) (m : Message) : String :=
  "  <message index=\"" ++ toString idx ++ "\" role=\"" ++ m.role ++ "\">" ++ "\n" ++
  "    <content>" ++ "\n" ++
  "      " ++ m.content ++ "\n" ++
  "    </content>" ++ "\n" ++
  "  </message>" ++ "\n"

/-- The serializer as the spec words it: one root container holding one
element per message in order, indices enumerating from 1. -/
def serializeSpec (ms : List Message) : String :=
  "<conversation>" ++ "\n" ++
    specConcat ((List.enumFrom 1 ms).map (fun p => serializeBlock p.1 p.2)) ++
    "</conversation>"

lemma xml_join (ms : List Message) : ∀ idx : Nat,
    joinLinesStr (xmlLines idx ms ++ ["</conversation>"]) =
      specConcat ((List.enumFrom idx ms).map (fun p => serializeBlock p.1 p.2)) ++
        "</conversation>" := by
  induction ms with
  | nil => intro idx; rfl
  | cons m rest ih =>
    intro idx
    have hshape : xmlLines idx (m :: rest) ++ ["</conversation>"] =
        ("  <message index=\"" ++ toString idx ++ "\" role=\"" ++ m.role ++ "\">") ::
        "    <content>" :: ("      " ++ m.content) :: "    </content>" ::
        "  </message>" :: (xmlLines (idx + 1) rest ++ ["</conversation>"]) := by
      simp [xmlLines, message_lines]
    rw [hshape]
    have hne : xmlLines (idx + 1) rest ++ ["</conversation>"] ≠ [] := by simp
    rw [joinLinesStr_cons2, joinLinesStr_cons2, joinLinesStr_cons2, joinLinesStr_cons2,
      joinLinesStr_cons _ _ hne, ih (idx + 1)]
    show _ = specConcat (serializeBlock idx m ::
      (List.enumFrom (idx + 1) rest).map (fun p => serializeBlock p.1 p.2)) ++ _
    rw [specConcat]
    unfold serializeBlock
    simp only [string_append_assoc]

/-- C8: `generate_xml_text` renders exactly the spec's interchange format —
one root container, one `<message>` element per message in sequence order,
`index` attributes enumerating 1.., `role` attributes equal to each message's
role, and the raw unescaped content inside `<content>`. -/
theorem C8_serializer : ∀ ms : List Message, generate_xml_text ms = serializeSpec ms := by
  intro ms
  unfold generate_xml_text serializeSpec
  have hne : xmlLines 1 ms ++ ["</conversation>"] ≠ [] := by simp
  have hshape : ["<conversation>"] ++ xmlLines 1 ms ++ ["</conversation>"] =
      "<conversation>" :: (xmlLines 1 ms ++ ["</conversation>"]) := by simp
  rw [hshape, joinLinesStr_cons _ _ hne, xml_join ms 1]
  simp only [string_append_assoc]

/-! ### C9: platform detection -/

/-- C9 (amended): `detect_platform` succeeds exactly when the URL contains
one of FOUR fixed host+path substrings — `chatgpt.com/share/`,
`claude.ai/share/`, and two alternatives for grok (`grok.com/share/` and
`x.ai/share/`) — tested in that order, and fails with the unsupported-URL
`ValueError` message when the URL contains none of the four. -/
theorem C9_detect : ∀ url : String,
    (detect_platform url = .ok "chatgpt" ↔ strContains url "chatgpt.com/share/" = true) ∧
    (detect_platform url = .ok "claude" ↔
      (strContains url "chatgpt.com/share/" = false ∧
        strContains url "claude.ai/share/" = true)) ∧
    (detect_platform url = .ok "grok" ↔
      (strContains url "chatgpt.com/share/" = false ∧
        strContains url "claude.ai/share/" = false ∧
        (strContains url "grok.com/share/" = true ∨
          strContains url "x.ai/share/" = true))) ∧
    ((∃ e, detect_platform url = .error e) ↔
      (strContains url "chatgpt.com/share/" = false ∧
        strContains url "claude.ai/share/" = false ∧
        strContains url "grok.com/share/" = false ∧
        strContains url "x.ai/share/" = false)) := by
  intro url
  unfold detect_platform
  by_cases h1 : strContains url "chatgpt.com/share/" = true
  · simp [h1]
  · have h1f : strContains url "chatgpt.com/share/" = false := by simpa using h1
    by_cases h2 : strContains url "claude.ai/share/" = true
    · simp [h1f, h2]
    · have h2f : strContains url "claude.ai/share/" = false := by simpa using h2
      by_cases h3 : strContains url "grok.com/share/" = true
      · simp [h1f, h2f, h3]
      · have h3f : strContains url "grok.com/share/" = false := by simpa using h3
        by_cases h4 : strContains url "x.ai/share/" = true
        · simp [h1f, h2f, h3f, h4]
        · have h4f : strContains url "x.ai/share/" = false := by simpa using h4
          simp [h1f, h2f, h3f, h4f]

/-- C9 witness: the theorem applied at a concrete chatgpt share URL. -/
theorem C9_witness : detect_platform "https://chatgpt.com/share/1" = .ok "chatgpt" :=
  (C9_detect "https://chatgpt.com/share/1").1.mpr (by decide)

/-- C9 counterexample: a URL containing none of the claim's three prefixes is
nevertheless accepted — `x.ai/share/` is a fourth pattern, a second one for
the grok platform. -/
theorem C9_cex :
    detect_platform "https://x.ai/share/abc123" = .ok "grok" ∧
      strContains "https://x.ai/share/abc123" "chatgpt.com/share/" = false ∧
      strContains "https://x.ai/share/abc123" "claude.ai/share/" = false ∧
      strContains "https://x.ai/share/abc123" "grok.com/share/" = false := by
  refine ⟨rfl, ?_, ?_, ?_⟩ <;> decide

end Renderchat
